import Mathlib

/-!
Verification of the operator abstraction layer of mxnet
(`include/mxnet/operator.h`).

The file embeds, as executable Lean definitions, the default (non-overridden)
implementations of the `OperatorProperty` virtual methods and the
`BackwardInputs` template helper, and proves the specified properties about
them.

Embedding conventions:
* `std::vector<T>` becomes `List T`; C++ `int` indices become `Int`.
* `std::vector::operator[]` with an `int` subscript converts the subscript to
  an unsigned `size_t`, so a negative subscript is out of bounds just like a
  too-large one; the fallible access `getVec` models this: it returns `none`
  unless `0 ≤ i` and `i.toNat` is within the list.
* Virtual dispatch on `DeclareBackwardDependency` inside `BackwardInputs` is
  modelled by passing the dependency function as a parameter; the default
  implementation is `OperatorProperty.DeclareBackwardDependency`.
* `InferShape` is pure virtual (no body in the repository), so the shape
  inference contract is modelled from the spec; see the doc comments on
  `mxnet.mergeDim` and related definitions.
-/

namespace mxnet

/-- Modelled from the spec: `ResourceRequest` is declared in `context.h`, which
is not part of the sources under verification; the spec describes it as a typed
request for an auxiliary execution resource carrying a resource kind.  Only the
type is needed here: the defaults under verification return the empty vector
whatever the type holds. -/
structure ResourceRequest where
  kind : Nat
deriving DecidableEq, Repr

namespace OperatorProperty

/-- Default `OperatorProperty::ListArguments`: `return {"data"};`. -/
def ListArguments : List String := ["data"]

/-- Default `OperatorProperty::ListReturns`: `return {"output"};`. -/
def ListReturns : List String := ["output"]

/-- Default `OperatorProperty::NumReturns`: `return 1;`. -/
def NumReturns : Int := 1

/-- Default `OperatorProperty::NumVisibleReturns`: `return NumReturns();`.
`NumReturns` is virtual, so the value the default returns is whatever the
(possibly overridden) `NumReturns` of the dynamic type yields; that value is
taken as the parameter `numReturns`. -/
def NumVisibleReturns (numReturns : Int) : Int := numReturns

/-- Default `OperatorProperty::ForwardResource`:
`return std::vector<ResourceRequest>();`. -/
def ForwardResource : List ResourceRequest := []

/-- Default `OperatorProperty::BackwardResource`:
`return std::vector<ResourceRequest>();`. -/
def BackwardResource : List ResourceRequest := []

/-- Default `OperatorProperty::DeclareBackwardDependency`: starts from a copy
of `out_grad` and appends `in_data` then `out_data` to it. -/
def DeclareBackwardDependency (out_grad in_data out_data : List Int) :
    List Int :=
  out_grad ++ in_data ++ out_data

/-- Default `OperatorProperty::ForwardInplaceOption`: returns the empty vector
of (output, input) pairs. -/
def ForwardInplaceOption (in_data out_data : List Int) : List (Int × Int) :=
  []

/-- Default `OperatorProperty::BackwardInplaceOption`: returns the empty vector
of (output, input) pairs. -/
def BackwardInplaceOption (out_grad in_data out_data in_grad : List Int) :
    List (Int × Int) :=
  []

end OperatorProperty

/-- Modelled from the spec: concrete operator kinds (subclasses of
`OperatorProperty` overriding `NumReturns` and `NumVisibleReturns`) are not in
the sources under verification — only the base class is.  The spec's data-model
invariant "visible-return-count ≤ total-return-count always" is therefore
modelled as a well-formedness condition every operator kind must carry. -/
structure OperatorKind where
  numReturns : Int
  numVisibleReturns : Int
  visible_le_total : numVisibleReturns ≤ numReturns

/-- Bounds-checked access to a `List` at a C++ `int` subscript, modelling
`std::vector::operator[]`: the `int` is converted to the unsigned `size_t`, so
the access is in bounds exactly when the subscript is non-negative and below
the length. -/
def getVec {T : Type} (l : List T) (i : Int) : Option T :=
  if h : 0 ≤ i ∧ i.toNat < l.length then some (l.get ⟨i.toNat, h.2⟩) else none

/-- The consecutive `int` indices `k, k+1, ..., k+n-1` handed out by the `cnt`
counter of `BackwardInputs` for one of the three role segments. -/
def idxList (k n : Nat) : List Int :=
  (List.range' k n).map Int.ofNat

/-- `cnt` values pushed into `in_data_idx` by the first loop of
`BackwardInputs`: `0, ..., in_data.size()-1`. -/
def inDataIdx (n_in : Nat) : List Int := idxList 0 n_in

/-- `cnt` values pushed into `out_data_idx` by the second loop of
`BackwardInputs`. -/
def outDataIdx (n_in n_out : Nat) : List Int := idxList n_in n_out

/-- `cnt` values pushed into `out_grad_idx` by the third loop of
`BackwardInputs`. -/
def outGradIdx (n_in n_out n_og : Nat) : List Int :=
  idxList (n_in + n_out) n_og

/-- `OperatorProperty::BackwardInputs` (template over `T`), written exactly as
the source: `all_vec` receives the elements of `in_data`, then of `out_data`,
then — in the loop that runs over `out_grad`'s indices — the elements
`out_data[i]` (the source reads `out_data`, not `out_grad`, in that loop); the
index triple `(in_data_idx, out_data_idx, out_grad_idx)` is then passed, in
that positional order, to the virtual `DeclareBackwardDependency` (whose
declared parameters are `(out_grad, in_data, out_data)`), and the returned
indices select from `all_vec`.  Every vector subscript is modelled fallibly, so
the function returns `none` exactly when some C++ access would be out of
bounds. -/
def BackwardInputs {T : Type}
    (dep : List Int → List Int → List Int → List Int)
    (in_data out_data out_grad : List T) : Option (List T) :=
  ((List.range out_grad.length).mapM (fun i => out_data.get? i)).bind
    (fun og_slots =>
      (dep (inDataIdx in_data.length)
          (outDataIdx in_data.length out_data.length)
          (outGradIdx in_data.length out_data.length out_grad.length)).mapM
        (fun i => getVec (in_data ++ out_data ++ og_slots) i))

/-- A tensor shape, per the spec's data model: an ordered sequence of
dimension sizes where a value of `0` denotes an unknown dimension; a shape of
ndim 0 (the empty sequence, `shape.ndim() == 0` in the source's doc comment)
is wholly unknown. -/
abbrev TShape : Type := List Nat

/-- Modelled from the spec: `InferShape` is pure virtual in `operator.h` — the
repository holds only its declaration and contract documentation ("For unknown
shapes, InferShape will try to fill in the correct Shape", "For known shapes,
InferShape will check shape consistency").  `mergeDim` unifies one
already-present dimension with the dimension the operator's rule requires: an
unknown (zero) dimension is refined to the required one, agreeing known
dimensions stand, and two differing known dimensions are a shape-inconsistency
failure (the `dmlc::Error` of the source's doc comment). -/
def mergeDim (cur req : Nat) : Except String Nat :=
  if cur = 0 then .ok req
  else if req = 0 then .ok cur
  else if cur = req then .ok cur
  else .error "shape inconsistency"

/-- Pointwise unification of two equal-length sequences in the `Except`
monad, failing on a length mismatch; the recursion scheme shared by dimension
lists and shape vectors. -/
def zipMerge {α : Type} (f : α → α → Except String α) :
    List α → List α → Except String (List α)
  | [], [] => .ok []
  | c :: cs, r :: rs =>
    (f c r).bind fun d =>
      (zipMerge f cs rs).bind fun ds => .ok (d :: ds)
  | _, _ => .error "shape inconsistency"

/-- Modelled from the spec: unification of one whole shape with the shape the
operator's rule requires.  A wholly unknown shape (ndim 0) is replaced by the
required shape, a wholly unknown requirement leaves the current shape, and two
known shapes must agree in ndim and are unified dimension by dimension with
`mergeDim`. -/
def mergeShape (cur req : TShape) : Except String TShape :=
  if cur.length = 0 then .ok req
  else if req.length = 0 then .ok cur
  else zipMerge mergeDim cur req

/-- Modelled from the spec: slotwise unification of a shape vector with the
rule-required shapes, one slot per argument (or per output). -/
def mergeShapes (cur req : List TShape) : Except String (List TShape) :=
  zipMerge mergeShape cur req

/-- A shape is fully resolved when it has a ndim and every dimension is
non-zero (known). -/
def shapeKnown (s : TShape) : Bool :=
  decide (s.length ≠ 0) && s.all fun d => decide (d ≠ 0)

/-- Modelled from the spec: the `InferShape` contract over the in/out shape
vectors.  The operator-kind-specific rule is represented by the per-slot
shapes it requires (`ruleIn`, `ruleOut`, themselves allowed to contain
unknowns).  `InferShape` unifies the given shapes with the rule: it raises a
shape-inconsistency failure when an already-known shape contradicts the rule,
and otherwise returns the refined vectors together with `true` when every
shape is fully resolved, `false` (not an error — the caller may retry once
more is known elsewhere in the graph) when information is still missing. -/
def InferShape (ruleIn ruleOut in_shape out_shape : List TShape) :
    Except String (Bool × List TShape × List TShape) :=
  (mergeShapes in_shape ruleIn).bind fun mIn =>
    (mergeShapes out_shape ruleOut).bind fun mOut =>
      .ok ((mIn ++ mOut).all shapeKnown, mIn, mOut)

/-- In-bounds evaluation of `getVec` at a natural subscript. -/
theorem getVec_eq {T : Type} (l : List T) (k : Nat) (hk : k < l.length) :
    getVec l (Int.ofNat k) = some (l.get ⟨k, hk⟩) := by
  rw [getVec, dif_pos (⟨Int.ofNat_nonneg k, by simpa using hk⟩ :
    0 ≤ Int.ofNat k ∧ (Int.ofNat k).toNat < l.length)]
  rfl

/-- `getVec` succeeds on every subscript that is in bounds once converted to
`size_t`. -/
theorem getVec_isSome {T : Type} (l : List T) (i : Int)
    (h : 0 ≤ i ∧ i.toNat < l.length) : ∃ a, getVec l i = some a :=
  ⟨_, by rw [getVec, dif_pos h]⟩

/-- Unifying an already-known (non-zero) dimension never changes it. -/
theorem mergeDim_preserve {cur req d : Nat} (h : mergeDim cur req = .ok d)
    (hc : cur ≠ 0) : d = cur := by
  rw [mergeDim, if_neg hc] at h
  by_cases hr : req = 0
  · rw [if_pos hr] at h
    exact (Except.ok.inj h).symm
  · rw [if_neg hr] at h
    by_cases hcr : cur = req
    · rw [if_pos hcr] at h
      exact (Except.ok.inj h).symm
    · rw [if_neg hcr] at h
      exact Except.noConfusion h

/-- Two differing known dimensions are a shape-inconsistency failure. -/
theorem mergeDim_conflict {cur req : Nat} (hc : cur ≠ 0) (hr : req ≠ 0)
    (hne : cur ≠ req) : mergeDim cur req = .error "shape inconsistency" := by
  rw [mergeDim, if_neg hc, if_neg hr, if_neg hne]

/-- Inversion for `zipMerge`: success forces equal lengths and pointwise
success of the underlying unification. -/
theorem zipMerge_ok {α : Type} (f : α → α → Except String α) :
    ∀ (cs rs ds : List α), zipMerge f cs rs = .ok ds →
      ds.length = cs.length ∧ rs.length = cs.length ∧
      ∀ (i : Nat) (c r : α), cs[i]? = some c → rs[i]? = some r →
        ∃ d, ds[i]? = some d ∧ f c r = .ok d := by
  intro cs
  induction cs with
  | nil =>
    intro rs ds h
    cases rs with
    | nil =>
      rw [zipMerge] at h
      obtain rfl : ([] : List α) = ds := Except.ok.inj h
      refine ⟨rfl, rfl, ?_⟩
      intro i c r hc _
      simp at hc
    | cons r rs => exact Except.noConfusion h
  | cons c cs ih =>
    intro rs ds h
    cases rs with
    | nil => exact Except.noConfusion h
    | cons r rs =>
      rw [zipMerge] at h
      cases hd : f c r with
      | error e => rw [hd] at h; simp [Except.bind] at h
      | ok d =>
        rw [hd] at h
        cases hds : zipMerge f cs rs with
        | error e => rw [hds] at h; simp [Except.bind] at h
        | ok ds2 =>
          rw [hds] at h
          simp only [Except.bind, Except.ok.injEq] at h
          obtain ⟨hlen, hrlen, hpt⟩ := ih rs ds2 hds
          subst h
          refine ⟨by simp [hlen], by simp [hrlen], ?_⟩
          intro i cv rv hcv hrv
          cases i with
          | zero =>
            simp at hcv hrv
            subst hcv; subst hrv
            exact ⟨d, by simp, hd⟩
          | succ i =>
            simp at hcv hrv ⊢
            exact hpt i cv rv hcv hrv

/-- Unifying an in part already-known shape with the rule's requirement
preserves every known dimension: a dimension is only ever refined from
unknown (zero) to known. -/
theorem mergeShape_preserve {cur req m : TShape}
    (h : mergeShape cur req = .ok m) (hc : cur ≠ []) :
    m.length = cur.length ∧
    ∀ (j : Nat) (d : Nat), cur[j]? = some d → d ≠ 0 → m[j]? = some d := by
  have hcl : cur.length ≠ 0 := by simpa using hc
  rw [mergeShape, if_neg hcl] at h
  by_cases hr : req.length = 0
  · rw [if_pos hr] at h
    have hm : m = cur := (Except.ok.inj h).symm
    subst hm
    exact ⟨rfl, fun j d hj _ => hj⟩
  · rw [if_neg hr] at h
    obtain ⟨hlen, hrlen, hpt⟩ := zipMerge_ok mergeDim cur req m h
    refine ⟨hlen, ?_⟩
    intro j d hj hdz
    have hjlt : j < cur.length := by
      have := List.getElem?_eq_some.mp hj
      exact this.1
    have hrj : ∃ r, req[j]? = some r := by
      have : j < req.length := by omega
      exact ⟨req[j], List.getElem?_eq_some.mpr ⟨this, rfl⟩⟩
    obtain ⟨r, hr2⟩ := hrj
    obtain ⟨d2, hd2, hmd⟩ := hpt j d r hj hr2
    rw [hd2, mergeDim_preserve hmd hdz]

/-- When the rule would require changing a known dimension to a different
known value, shape unification raises a shape-inconsistency failure. -/
theorem mergeShape_conflict {cur req : TShape} {j d e : Nat}
    (hlen : cur.length = req.length)
    (hj : cur[j]? = some d) (hr : req[j]? = some e)
    (hd : d ≠ 0) (he : e ≠ 0) (hne : d ≠ e) :
    ∃ msg, mergeShape cur req = .error msg := by
  cases hres : mergeShape cur req with
  | error msg => exact ⟨msg, rfl⟩
  | ok m =>
    exfalso
    have hjlt : j < cur.length := (List.getElem?_eq_some.mp hj).1
    have hcl : cur.length ≠ 0 := by omega
    have hrl : req.length ≠ 0 := by omega
    rw [mergeShape, if_neg hcl, if_neg hrl] at hres
    obtain ⟨_, _, hpt⟩ := zipMerge_ok mergeDim cur req m hres
    obtain ⟨d2, _, hmd⟩ := hpt j d e hj hr
    rw [mergeDim_conflict hd he hne] at hmd
    exact Except.noConfusion hmd

/-- Inversion for `InferShape`: success forces success of both slotwise
unifications and fixes the returned completeness flag. -/
theorem InferShape_ok {ruleIn ruleOut in_shape out_shape : List TShape}
    {b : Bool} {mIn mOut : List TShape}
    (h : InferShape ruleIn ruleOut in_shape out_shape = .ok (b, mIn, mOut)) :
    mergeShapes in_shape ruleIn = .ok mIn ∧
    mergeShapes out_shape ruleOut = .ok mOut ∧
    b = (mIn ++ mOut).all shapeKnown := by
  rw [InferShape] at h
  cases h1 : mergeShapes in_shape ruleIn with
  | error e => rw [h1] at h; simp [Except.bind] at h
  | ok mIn2 =>
    rw [h1] at h
    cases h2 : mergeShapes out_shape ruleOut with
    | error e => rw [h2] at h; simp [Except.bind] at h
    | ok mOut2 =>
      rw [h2] at h
      simp only [Except.bind, Except.ok.injEq, Prod.mk.injEq] at h
      obtain ⟨hb, hIn, hOut⟩ := h
      subst hIn; subst hOut
      exact ⟨rfl, rfl, hb.symm⟩

/-- A dimension-level conflict between a current in-shape and the rule's
requirement makes `InferShape` raise rather than return. -/
theorem InferShape_conflict_in {ruleIn ruleOut in_shape out_shape : List TShape}
    {i j d e : Nat} {s r : TShape}
    (hs : in_shape[i]? = some s) (hr : ruleIn[i]? = some r)
    (hlen : s.length = r.length)
    (hd : s[j]? = some d) (he : r[j]? = some e)
    (hdz : d ≠ 0) (hez : e ≠ 0) (hne : d ≠ e) :
    ∃ msg, InferShape ruleIn ruleOut in_shape out_shape = .error msg := by
  cases hres : InferShape ruleIn ruleOut in_shape out_shape with
  | error msg => exact ⟨msg, rfl⟩
  | ok t =>
    exfalso
    obtain ⟨b, mIn, mOut⟩ := t
    obtain ⟨h1, _, _⟩ := InferShape_ok hres
    obtain ⟨_, _, hpt⟩ := zipMerge_ok mergeShape in_shape ruleIn mIn h1
    obtain ⟨m, _, hms⟩ := hpt i s r hs hr
    obtain ⟨msg, hmsg⟩ := mergeShape_conflict hlen hd he hdz hez hne
    rw [hmsg] at hms
    exact Except.noConfusion hms

/-- A dimension-level conflict between a current out-shape and the rule's
requirement likewise makes `InferShape` raise rather than return. -/
theorem InferShape_conflict_out
    {ruleIn ruleOut in_shape out_shape : List TShape} {i j d e : Nat}
    {s r : TShape}
    (hs : out_shape[i]? = some s) (hr : ruleOut[i]? = some r)
    (hlen : s.length = r.length)
    (hd : s[j]? = some d) (he : r[j]? = some e)
    (hdz : d ≠ 0) (hez : e ≠ 0) (hne : d ≠ e) :
    ∃ msg, InferShape ruleIn ruleOut in_shape out_shape = .error msg := by
  cases hres : InferShape ruleIn ruleOut in_shape out_shape with
  | error msg => exact ⟨msg, rfl⟩
  | ok t =>
    exfalso
    obtain ⟨b, mIn, mOut⟩ := t
    obtain ⟨_, h2, _⟩ := InferShape_ok hres
    obtain ⟨_, _, hpt⟩ := zipMerge_ok mergeShape out_shape ruleOut mOut h2
    obtain ⟨m, _, hms⟩ := hpt i s r hs hr
    obtain ⟨msg, hmsg⟩ := mergeShape_conflict hlen hd he hdz hez hne
    rw [hmsg] at hms
    exact Except.noConfusion hms

/-- Slotwise form of known-dimension preservation: a successful slotwise
unification preserves every known dimension of every already-present
shape. -/
theorem mergeShapes_preserve {cur req merged : List TShape}
    (h : mergeShapes cur req = .ok merged) :
    ∀ (i : Nat) (s m : TShape), cur[i]? = some s → merged[i]? = some m →
      s ≠ [] →
      m.length = s.length ∧
      ∀ (j d : Nat), s[j]? = some d → d ≠ 0 → m[j]? = some d := by
  intro i s m hs hm hne
  obtain ⟨hlen, hrlen, hpt⟩ := zipMerge_ok mergeShape cur req merged h
  have hi : i < cur.length := (List.getElem?_eq_some.mp hs).1
  have hri : i < req.length := by omega
  obtain ⟨r, hr⟩ : ∃ r, req[i]? = some r :=
    ⟨req[i], List.getElem?_eq_some.mpr ⟨hri, rfl⟩⟩
  obtain ⟨m2, hm2, hms⟩ := hpt i s r hs hr
  rw [hm] at hm2
  obtain rfl : m = m2 := Option.some.inj hm2
  exact mergeShape_preserve hms hne

/-- The modelled `InferShape` on the spec's end-to-end scenario: data shape
`(4, 8)` known, weight wholly unknown, the rule requiring weight `(8, 16)`
and output `(4, 16)`: everything resolves and the call returns `true`. -/
theorem inferShape_example_resolves :
    InferShape [[], [8, 16]] [[4, 16]] [[4, 8], []] [[]] =
      .ok (true, [[4, 8], [8, 16]], [[4, 16]]) := rfl

/-- The modelled `InferShape` raises a shape-inconsistency failure when a
known dimension contradicts the rule (here `4` against a required `9`). -/
theorem inferShape_example_inconsistent :
    InferShape [[9, 8]] [] [[4, 8]] [] = .error "shape inconsistency" := rfl

/-- The modelled `InferShape` returns `false` — not an error — when
information to resolve every shape is still missing (here the output shape
stays wholly unknown). -/
theorem inferShape_example_insufficient :
    InferShape [[0, 16]] [[]] [[4, 0]] [[]] =
      .ok (false, [[4, 16]], [[]]) := rfl

/-- The out_grad-segment loop of `BackwardInputs`: reading `out_data[i]` for
`i` below `n` collects the first `n` elements of `out_data`, provided all the
reads are in bounds. -/
theorem mapM_getq_range' {T : Type} (l : List T) :
    ∀ (n k : Nat), k + n ≤ l.length →
      (List.range' k n).mapM (fun i => l.get? i) =
        some ((l.drop k).take n) := by
  intro n
  induction n with
  | zero => intro k _; rfl
  | succ n ih =>
    intro k h
    have hk : k < l.length := by omega
    have h1 : l.get? k = some l[k] := by
      rw [List.get?_eq_getElem?]
      exact List.getElem?_eq_some.mpr ⟨hk, rfl⟩
    rw [List.range'_succ, List.mapM_cons, h1, ih (k + 1) (by omega)]
    show some (l[k] :: (l.drop (k + 1)).take n) = some ((l.drop k).take (n + 1))
    rw [List.drop_eq_getElem_cons hk, List.take_succ_cons]

/-- Selecting with `getVec` along a consecutive index segment returns the
corresponding slice of the vector. -/
theorem mapM_getVec_idxList {T : Type} (l : List T) :
    ∀ (n k : Nat), k + n ≤ l.length →
      (idxList k n).mapM (fun i => getVec l i) =
        some ((l.drop k).take n) := by
  intro n
  induction n with
  | zero => intro k _; rfl
  | succ n ih =>
    intro k h
    have hk : k < l.length := by
      omega
    rw [idxList, List.range'_succ, List.map_cons, List.mapM_cons,
      getVec_eq l k hk]
    have h2 : (List.map Int.ofNat (List.range' (k + 1) n)).mapM
        (fun i => getVec l i) = some ((l.drop (k + 1)).take n) :=
      ih (k + 1) (by omega)
    rw [h2]
    show some (l.get ⟨k, hk⟩ :: (l.drop (k + 1)).take n) =
      some ((l.drop k).take (n + 1))
    rw [List.get_eq_getElem, List.drop_eq_getElem_cons hk,
      List.take_succ_cons]

/-- A `mapM` in the `Option` monad succeeds when the function succeeds on
every element of the list. -/
theorem mapM_isSome {α β : Type} (f : α → Option β) :
    ∀ xs : List α, (∀ a ∈ xs, ∃ b, f a = some b) →
      ∃ ys, xs.mapM f = some ys := by
  intro xs
  induction xs with
  | nil => intro _; exact ⟨[], rfl⟩
  | cons a xs ih =>
    intro h
    obtain ⟨b, hb⟩ := h a (by simp)
    obtain ⟨ys, hys⟩ := ih fun x hx => h x (by simp [hx])
    refine ⟨b :: ys, ?_⟩
    rw [List.mapM_cons, hb, hys]
    rfl

/-- The flattening loop over `out_grad` in `BackwardInputs` yields exactly the
first `out_grad.length` elements of `out_data` whenever `out_grad` is no
longer than `out_data`. -/
theorem og_slots_eq {T : Type} (out_data : List T) (n : Nat)
    (h : n ≤ out_data.length) :
    (List.range n).mapM (fun i => out_data.get? i) =
      some (out_data.take n) := by
  rw [List.range_eq_range']
  simpa using mapM_getq_range' out_data n 0 (by omega)

end mxnet

/-- C1 (the code at the claim's probe input): with `in_data = [a,b] = [1,2]`,
`out_data = [c] = [3]`, `out_grad = [d] = [4]` and a declared dependency of
flattened indices `{0, 2}` (or, reading the out_grad slot as flattened index 3,
`{0, 3}`), `BackwardInputs` returns `[a, c] = [1, 3]` — not the `[a, d] =
[1, 4]` required by the claim: the loop over `out_grad` pushes `out_data[i]`
into `all_vec`, so the out_grad element `d` never enters the flattened vector
at all. -/
theorem C1_backwardInputs_returns_out_data_for_out_grad_slot :
    mxnet.BackwardInputs (fun _ _ _ => ([0, 2] : List Int)) [1, 2] [3]
        ([4] : List Int) = some [1, 3] ∧
    mxnet.BackwardInputs (fun _ _ _ => ([0, 3] : List Int)) [1, 2] [3]
        ([4] : List Int) = some [1, 3] ∧
    some ([1, 3] : List Int) ≠ some [1, 4] := by
  refine ⟨rfl, rfl, by decide⟩

/-- C2: the default `DeclareBackwardDependency` returns exactly the union of
its three input index lists — their concatenation, so multiplicity is
preserved per input list and nothing is deduplicated: every value occurs in
the result as often as its occurrences in the three lists combined. -/
theorem C2_default_DeclareBackwardDependency_is_union :
    ∀ out_grad in_data out_data : List Int,
      mxnet.OperatorProperty.DeclareBackwardDependency out_grad in_data
          out_data = out_grad ++ in_data ++ out_data ∧
      ∀ x : Int,
        (mxnet.OperatorProperty.DeclareBackwardDependency out_grad in_data
            out_data).count x =
          out_grad.count x + in_data.count x + out_data.count x := by
  intro out_grad in_data out_data
  refine ⟨rfl, fun x => ?_⟩
  simp [mxnet.OperatorProperty.DeclareBackwardDependency, List.count_append,
    Nat.add_assoc]

/-- C3: for every operator rule and every pair of in/out shape vectors, a
successful `InferShape` never changes a dimension that is already known
(non-zero) to a different known value: every known dimension of every
already-present input or output shape survives unchanged in the refined
vectors, so a dimension is only ever refined from unknown (zero) to known;
and whenever the operator's rule would require changing a known dimension to
a different known value — on the input or on the output side — `InferShape`
raises a shape-inconsistency failure instead of returning. -/
theorem C3_inferShape_monotonic :
    ∀ ruleIn ruleOut in_shape out_shape : List mxnet.TShape,
      (∀ (b : Bool) (mIn mOut : List mxnet.TShape),
        mxnet.InferShape ruleIn ruleOut in_shape out_shape =
            .ok (b, mIn, mOut) →
          (∀ (i : Nat) (s m : mxnet.TShape), in_shape[i]? = some s →
              mIn[i]? = some m → s ≠ [] →
              m.length = s.length ∧
              ∀ (j d : Nat), s[j]? = some d → d ≠ 0 → m[j]? = some d) ∧
          (∀ (i : Nat) (s m : mxnet.TShape), out_shape[i]? = some s →
              mOut[i]? = some m → s ≠ [] →
              m.length = s.length ∧
              ∀ (j d : Nat), s[j]? = some d → d ≠ 0 → m[j]? = some d)) ∧
      (∀ (i j d e : Nat) (s r : mxnet.TShape),
        in_shape[i]? = some s → ruleIn[i]? = some r → s.length = r.length →
        s[j]? = some d → r[j]? = some e → d ≠ 0 → e ≠ 0 → d ≠ e →
        ∃ msg, mxnet.InferShape ruleIn ruleOut in_shape out_shape =
          .error msg) ∧
      (∀ (i j d e : Nat) (s r : mxnet.TShape),
        out_shape[i]? = some s → ruleOut[i]? = some r →
        s.length = r.length →
        s[j]? = some d → r[j]? = some e → d ≠ 0 → e ≠ 0 → d ≠ e →
        ∃ msg, mxnet.InferShape ruleIn ruleOut in_shape out_shape =
          .error msg) := by
  intro ruleIn ruleOut in_shape out_shape
  refine ⟨?_, ?_, ?_⟩
  · intro b mIn mOut h
    obtain ⟨h1, h2, _⟩ := mxnet.InferShape_ok h
    exact ⟨mxnet.mergeShapes_preserve h1, mxnet.mergeShapes_preserve h2⟩
  · intro i j d e s r hs hr hlen hd he hdz hez hne
    exact mxnet.InferShape_conflict_in hs hr hlen hd he hdz hez hne
  · intro i j d e s r hs hr hlen hd he hdz hez hne
    exact mxnet.InferShape_conflict_out hs hr hlen hd he hdz hez hne

/-- C4: `InferShape` returns `false` — a non-error outcome after which the
caller may retry — exactly when information to resolve all shapes is still
missing: a `false` result means some refined shape is not yet fully known
while a `true` result means every refined shape is fully known; and a
contradiction between an already-known dimension and the operator's rule —
whether in an input shape or in an output shape — makes `InferShape` raise a
fatal shape-inconsistency error rather than return `false`. -/
theorem C4_inferShape_false_iff_insufficient :
    ∀ ruleIn ruleOut in_shape out_shape : List mxnet.TShape,
      (∀ mIn mOut : List mxnet.TShape,
        mxnet.InferShape ruleIn ruleOut in_shape out_shape =
            .ok (false, mIn, mOut) →
          ∃ s ∈ mIn ++ mOut, mxnet.shapeKnown s = false) ∧
      (∀ mIn mOut : List mxnet.TShape,
        mxnet.InferShape ruleIn ruleOut in_shape out_shape =
            .ok (true, mIn, mOut) →
          ∀ s ∈ mIn ++ mOut, mxnet.shapeKnown s = true) ∧
      (∀ (i j d e : Nat) (s r : mxnet.TShape),
        in_shape[i]? = some s → ruleIn[i]? = some r →
        s.length = r.length →
        s[j]? = some d → r[j]? = some e → d ≠ 0 → e ≠ 0 → d ≠ e →
        ∃ msg, mxnet.InferShape ruleIn ruleOut in_shape out_shape =
          .error msg) ∧
      (∀ (i j d e : Nat) (s r : mxnet.TShape),
        out_shape[i]? = some s → ruleOut[i]? = some r →
        s.length = r.length →
        s[j]? = some d → r[j]? = some e → d ≠ 0 → e ≠ 0 → d ≠ e →
        ∃ msg, mxnet.InferShape ruleIn ruleOut in_shape out_shape =
          .error msg) := by
  intro ruleIn ruleOut in_shape out_shape
  refine ⟨?_, ?_, ?_, ?_⟩
  · intro mIn mOut h
    obtain ⟨_, _, hb⟩ := mxnet.InferShape_ok h
    have hall := hb.symm
    rw [List.all_eq_false] at hall
    obtain ⟨s, hsmem, hs⟩ := hall
    exact ⟨s, hsmem, by simpa using hs⟩
  · intro mIn mOut h
    obtain ⟨_, _, hb⟩ := mxnet.InferShape_ok h
    have hall := hb.symm
    rw [List.all_eq_true] at hall
    exact hall
  · intro i j d e s r hs hr hlen hd he hdz hez hne
    exact mxnet.InferShape_conflict_in hs hr hlen hd he hdz hez hne
  · intro i j d e s r hs hr hlen hd he hdz hez hne
    exact mxnet.InferShape_conflict_out hs hr hlen hd he hdz hez hne

/-- C5: every operator kind has `NumVisibleReturns() ≤ NumReturns()` (the
spec-modelled invariant carried by `mxnet.OperatorKind`), and the default
implementation of `NumVisibleReturns` returns exactly `NumReturns()`, whatever
value the dynamic type's `NumReturns` yields — in particular the two defaults
are equal. -/
theorem C5_numVisibleReturns_le_numReturns :
    (∀ k : mxnet.OperatorKind, k.numVisibleReturns ≤ k.numReturns) ∧
    (∀ n : Int, mxnet.OperatorProperty.NumVisibleReturns n = n) ∧
    mxnet.OperatorProperty.NumVisibleReturns mxnet.OperatorProperty.NumReturns
      = mxnet.OperatorProperty.NumReturns :=
  ⟨fun k => k.visible_le_total, fun _ => rfl, rfl⟩

/-- C6: the default `ForwardInplaceOption` and `BackwardInplaceOption` return
the empty sequence of (output, input) alias pairs on all index-list inputs. -/
theorem C6_default_inplace_options_empty :
    ∀ out_grad in_data out_data in_grad : List Int,
      mxnet.OperatorProperty.ForwardInplaceOption in_data out_data = [] ∧
      mxnet.OperatorProperty.BackwardInplaceOption out_grad in_data out_data
        in_grad = [] :=
  fun _ _ _ _ => ⟨rfl, rfl⟩

/-- C7: the default `ForwardResource` and `BackwardResource` return the empty
sequence of `ResourceRequest`. -/
theorem C7_default_resources_empty :
    mxnet.OperatorProperty.ForwardResource = [] ∧
    mxnet.OperatorProperty.BackwardResource = [] :=
  ⟨rfl, rfl⟩

/-- C8: the default `ListArguments` returns the single-element sequence
`["data"]` and the default `ListReturns` returns `["output"]`. -/
theorem C8_default_argument_and_return_names :
    mxnet.OperatorProperty.ListArguments = ["data"] ∧
    mxnet.OperatorProperty.ListReturns = ["output"] :=
  ⟨rfl, rfl⟩

/-- C9: with the default `DeclareBackwardDependency`, and `out_grad` no longer
than `out_data`, `BackwardInputs` returns the concatenation of `in_data`, then
`out_data`, then the first `out_grad.length` elements of `out_data`: the
out_grad positions of the flattened vector are populated from `out_data`, and
the index triple is passed to `DeclareBackwardDependency` positionally as
`(in_data_idx, out_data_idx, out_grad_idx)` against its declared parameter
order `(out_grad, in_data, out_data)`, so the default returns the whole
flattened index space in order. -/
theorem C9_backwardInputs_default_dependency {T : Type}
    (in_data out_data out_grad : List T)
    (h : out_grad.length ≤ out_data.length) :
    mxnet.BackwardInputs mxnet.OperatorProperty.DeclareBackwardDependency
        in_data out_data out_grad =
      some (in_data ++ out_data ++ out_data.take out_grad.length) := by
  unfold mxnet.BackwardInputs
  rw [mxnet.og_slots_eq out_data out_grad.length h, Option.some_bind]
  simp only [mxnet.OperatorProperty.DeclareBackwardDependency,
    mxnet.inDataIdx, mxnet.outDataIdx, mxnet.outGradIdx]
  have hlen : (in_data ++ out_data ++ out_data.take out_grad.length).length
      = in_data.length + out_data.length + out_grad.length := by
    simp [Nat.min_eq_left h]
    omega
  rw [List.mapM_append, List.mapM_append,
    mxnet.mapM_getVec_idxList _ in_data.length 0 (by omega),
    mxnet.mapM_getVec_idxList _ out_data.length in_data.length (by omega),
    mxnet.mapM_getVec_idxList _ out_grad.length
      (in_data.length + out_data.length) (by omega)]
  have e1 : ((in_data ++ out_data ++ out_data.take out_grad.length).drop
      0).take in_data.length = in_data := by
    rw [List.drop_zero, List.append_assoc,
      List.take_append_of_le_length le_rfl, List.take_length]
  have e2 : ((in_data ++ out_data ++ out_data.take out_grad.length).drop
      in_data.length).take out_data.length = out_data := by
    rw [List.append_assoc, List.drop_left, List.take_append_of_le_length
      le_rfl, List.take_length]
  have e3 : ((in_data ++ out_data ++ out_data.take out_grad.length).drop
      (in_data.length + out_data.length)).take out_grad.length =
      out_data.take out_grad.length := by
    have hl : in_data.length + out_data.length =
        (in_data ++ out_data).length := (List.length_append _ _).symm
    rw [hl, List.drop_left, List.take_take, Nat.min_self]
  show some ((((in_data ++ out_data ++ out_data.take out_grad.length).drop
        0).take in_data.length ++
      ((in_data ++ out_data ++ out_data.take out_grad.length).drop
        in_data.length).take out_data.length) ++
      ((in_data ++ out_data ++ out_data.take out_grad.length).drop
        (in_data.length + out_data.length)).take out_grad.length) =
    some (in_data ++ out_data ++ out_data.take out_grad.length)
  rw [e1, e2, e3]

/-- Witness for C9 at concrete input: `in_data = [10, 20]`,
`out_data = [30]`, `out_grad = [40]` yields `[10, 20, 30, 30]`. -/
theorem C9_backwardInputs_default_dependency_witness :
    mxnet.BackwardInputs mxnet.OperatorProperty.DeclareBackwardDependency
        [10, 20] [30] ([40] : List Int) = some [10, 20, 30, 30] := by
  simpa using C9_backwardInputs_default_dependency [10, 20] [30]
    ([40] : List Int) (by decide)

/-- C10: when `out_grad` has at most as many elements as `out_data` and every
index returned by `DeclareBackwardDependency` lies (as a `size_t`) below
`in_data.size() + out_data.size() + out_grad.size()`, every vector element
access performed by `BackwardInputs` is within bounds, so the fallible
embedding returns a value; the flattening loop over `out_grad` reads
`out_data[i]`, which stays in bounds only because of the first condition. -/
theorem C10_backwardInputs_in_bounds {T : Type}
    (dep : List Int → List Int → List Int → List Int)
    (in_data out_data out_grad : List T)
    (h : out_grad.length ≤ out_data.length)
    (hdep : ∀ i ∈ dep (mxnet.inDataIdx in_data.length)
        (mxnet.outDataIdx in_data.length out_data.length)
        (mxnet.outGradIdx in_data.length out_data.length out_grad.length),
      0 ≤ i ∧ i.toNat <
        in_data.length + out_data.length + out_grad.length) :
    ∃ l, mxnet.BackwardInputs dep in_data out_data out_grad = some l := by
  unfold mxnet.BackwardInputs
  rw [mxnet.og_slots_eq out_data out_grad.length h, Option.some_bind]
  have hlen : (in_data ++ out_data ++ out_data.take out_grad.length).length
      = in_data.length + out_data.length + out_grad.length := by
    simp [Nat.min_eq_left h]
    omega
  exact mxnet.mapM_isSome _ _ fun i hi =>
    mxnet.getVec_isSome _ i (by rw [hlen]; exact hdep i hi)

/-- Witness for C10 at concrete input: `in_data = [5, 6]`, `out_data = [7]`,
`out_grad = [8]` and a dependency function declaring indices `[3, 0]`. -/
theorem C10_backwardInputs_in_bounds_witness :
    ∃ l, mxnet.BackwardInputs (fun _ _ _ => ([3, 0] : List Int))
      [5, 6] [7] ([8] : List Int) = some l :=
  C10_backwardInputs_in_bounds (fun _ _ _ => ([3, 0] : List Int))
    [5, 6] [7] ([8] : List Int) (by decide) (by decide)
